import Mathlib

/-!
Verification of the concurrency core of the alpha-smart-router repository.

Each C++ component is shallowly embedded as executable Lean definitions:

* `Alpha.mem.SpscQueue`    — the SPSC ring (`spsc_queue.hpp`), state passed
  explicitly; `push`/`pop` return the success flag together with the new state.
* `Alpha.routing`          — seqlock metrics slots, the three path-selection
  policies (`path_selection.cpp`), the policy binding (`policy_binding.cpp`)
  and the RCU service registry (`service_registry.cpp`).

Machine integers are modelled as `Nat`, reduced `% 2 ^ 32` exactly where the
C++ `uint32_t` arithmetic can wrap.  String lengths are counted in characters
(the source counts bytes; the two agree on the ASCII inputs the validators
accept).  Seqlock readers are modelled against an explicit schedule of
observed values, so the quiescent (no concurrent writer) case is the constant
schedule.
-/

namespace Alpha

namespace mem

/-- State of `alpha::mem::SpscQueue<T>`: consumer index `head`, producer index
`tail`, the power-of-two `capacity`, `mask = capacity - 1`, and the buffer
(uninitialised cells are `none`). -/
structure SpscQueue (T : Type) where
  head : Nat
  tail : Nat
  capacity : Nat
  mask : Nat
  buf : Nat → Option T

namespace SpscQueue

/-- Fresh queue as built by `SpscQueue<T>::with_capacity` on a validated
power-of-two capacity: both indices zero, no element constructed. -/
def new (T : Type) (cap : Nat) : SpscQueue T :=
  { head := 0, tail := 0, capacity := cap, mask := cap - 1, buf := fun _ => none }

/-- Operation `SpscQueue::push`: compute `next = (tail+1) & mask`; if it equals `head`
the queue is full and nothing changes, otherwise store at `buf[tail]` and
advance `tail`. -/
def push (q : SpscQueue T) (v : T) : Bool × SpscQueue T :=
  let t := q.tail
  let n := (t + 1) &&& q.mask
  if n = q.head then (false, q)
  else (true, { q with buf := fun i => if i = t then some v else q.buf i, tail := n })

/-- Operation `SpscQueue::pop`: if `head = tail` the queue is empty, otherwise move
`buf[head]` out and advance `head`.  (The C++ move leaves a moved-from value
in the slot; the slot is only ever read again after being overwritten, so the
buffer is left unchanged here.) -/
def pop (q : SpscQueue T) : Option T × SpscQueue T :=
  let h := q.head
  if h = q.tail then (none, q)
  else (q.buf h, { q with head := (h + 1) &&& q.mask })

/-- Observer `SpscQueue::empty`: `head == tail`. -/
def empty (q : SpscQueue T) : Bool := q.head == q.tail

/-- Observer `SpscQueue::full`: `(tail+1) & mask == head`. -/
def full (q : SpscQueue T) : Bool := ((q.tail + 1) &&& q.mask) == q.head

/-- Observer `SpscQueue::approx_size`: `(tail + capacity - head) & mask`. -/
def approx_size (q : SpscQueue T) : Nat :=
  (q.tail + q.capacity - q.head) &&& q.mask

/-- Push a list of values in order; the flag is `true` iff every push
succeeded. -/
def pushAll (q : SpscQueue T) : List T → Bool × SpscQueue T
  | [] => (true, q)
  | v :: vs =>
    let r := q.push v
    let r2 := pushAll r.2 vs
    (r.1 && r2.1, r2.2)

/-- Pop `n` times, collecting the successfully popped values in order. -/
def popN (q : SpscQueue T) : Nat → List T × SpscQueue T
  | 0 => ([], q)
  | n + 1 =>
    match q.pop with
    | (none, q2) => ([], q2)
    | (some v, q2) =>
      let r := popN q2 n
      (v :: r.1, r.2)

/-- Pop until empty (with fuel), collecting the values: the consumer-side
drain loop of the tests. -/
def drain (q : SpscQueue T) : Nat → List T
  | 0 => []
  | n + 1 =>
    match q.pop with
    | (none, _) => []
    | (some v, q2) => v :: drain q2 n

/-- One producer/consumer step: a `push v` attempt or a `pop` attempt. -/
inductive Op (T : Type) where
  | push (v : T)
  | pop

/-- Run a sequence of operations, counting the number of successful pushes
and of successful pops (in that order). -/
def runOps (q : SpscQueue T) : List (Op T) → SpscQueue T × Nat × Nat
  | [] => (q, 0, 0)
  | .push v :: ops =>
    let r := q.push v
    let rest := runOps r.2 ops
    (rest.1, (if r.1 then 1 else 0) + rest.2.1, rest.2.2)
  | .pop :: ops =>
    let r := q.pop
    let rest := runOps r.2 ops
    (rest.1, rest.2.1, (if r.1.isSome then 1 else 0) + rest.2.2)

end SpscQueue

end mem

end Alpha

namespace Alpha

namespace routing

/-- Path identifier `PathId`, a `uint32_t`; `0` is "no path chosen". -/
abbrev PathId := Nat

/-- Per-path metrics struct `PathMetrics` (all-`uint32_t`/`uint8_t` fields and
a health flag). -/
structure PathMetrics where
  rtt_us : Nat := 2 ^ 32 - 1
  one_way_delay_us : Nat := 2 ^ 32 - 1
  loss_ppm : Nat := 0
  avail_kbps : Nat := 0
  qos_class : Nat := 0
  healthy : Bool := false
deriving DecidableEq, Repr

/-- Cell `MetricsSlot`: a `uint32_t` sequence counter guarding one `PathMetrics`
payload. -/
structure MetricsSlot where
  seq : Nat := 0
  metrics : PathMetrics := {}
deriving DecidableEq, Repr

/-- Pair `CandidateRef`: path id plus the referenced metrics slot (the embedding
stores the slot's value in place of the pointer). -/
structure CandidateRef where
  id : PathId := 0
  slot : MetricsSlot := {}
deriving DecidableEq, Repr

/-- Per-packet context `PacketContext`: 32-bit flow hash and 8-bit DSCP marker. -/
structure PacketContext where
  flow_hash : Nat := 0
  dscp : Nat := 0
deriving DecidableEq, Repr

namespace cp

/-- Sequence-counter effect of `cp::update_metrics`: store `s0 | 1`, write the
payload, then store `(s0 | 1) + 1`.  The counter is a `uint32_t`, so the final
store wraps `% 2 ^ 32`. -/
def update_seq (s0 : Nat) : Nat := ((s0 ||| 1) + 1) % 2 ^ 32

/-- Writer `cp::update_metrics` on a quiescent slot: the payload is replaced and the
counter becomes `update_seq seq`. -/
def update_metrics (s : MetricsSlot) (m : PathMetrics) : MetricsSlot :=
  { seq := update_seq s.seq, metrics := m }

end cp

namespace dp

/-- One reader iteration's observations in `dp::load_metrics`: the first
counter load `s1`, the payload copied between the loads, and the second
counter load `s2`.  (When `s1` is odd the iteration `continue`s and the last
two components are never read.) -/
structure SeqObs where
  s1 : Nat
  payload : PathMetrics
  s2 : Nat

/-- Acceptance test of one `dp::load_metrics` iteration: skip if `s1` is odd,
otherwise accept iff `s1 == s2` and `s2` is even. -/
def iterAccept (o : SeqObs) : Bool :=
  if o.s1 % 2 = 1 then false
  else o.s1 = o.s2 ∧ o.s2 % 2 = 0

/-- The bounded retry loop of `dp::load_metrics`: `fuel` iterations remain and
`i` is the current loop counter. -/
def load_metrics_go (sched : Nat → SeqObs) : Nat → Nat → Option PathMetrics
  | 0, _ => none
  | fuel + 1, i =>
    if iterAccept (sched i) then some (sched i).payload
    else load_metrics_go sched fuel (i + 1)

/-- Reader `dp::load_metrics`: at most 4 iterations against the observation schedule;
`none` models the `return false` after the loop exhausts. -/
def load_metrics (sched : Nat → SeqObs) : Option PathMetrics :=
  load_metrics_go sched 4 0

/-- Reader `dp::load_metrics` against a quiescent slot (no concurrent writer): every
iteration observes the same counter and payload. -/
def read_slot (s : MetricsSlot) : Option PathMetrics :=
  load_metrics (fun _ => { s1 := s.seq, payload := s.metrics, s2 := s.seq })

end dp

/-- Helper `qos_match`: placeholder match between a path class and a packet DSCP —
any non-zero class is a weak match. -/
def qos_match (path_class _dscp : Nat) : Bool := path_class != 0

/-- PRNG `XorShift32` state (`uint32_t`); the constructor replaces a zero seed
by `0x9E3779B9`. -/
def XorShift32.init (seed : Nat) : Nat :=
  if seed ≠ 0 then seed else 0x9E3779B9

/-- Step `XorShift32::next`: `x ^= x<<13; x ^= x>>17; x ^= x<<5` on `uint32_t`,
returning the new state both as result and as state. -/
def XorShift32.next (state : Nat) : Nat :=
  let x := state
  let x := (x ^^^ (x <<< 13)) % 2 ^ 32
  let x := x ^^^ (x >>> 17)
  let x := (x ^^^ (x <<< 5)) % 2 ^ 32
  x

/-- Step `XorShift32::next_bounded`: `b ? next() % b : 0`, paired with the updated
generator state. -/
def XorShift32.next_bounded (state b : Nat) : Nat × Nat :=
  let x := XorShift32.next state
  (if b ≠ 0 then x % b else 0, x)

/-- The scan loop shared by the policies: for `i = 0, ..., n-1` visit index
`k = (start + i) % n` and return `cands[k].id` for the first `k` accepted by
`accept`.  `fuel` counts the iterations left (`n - i`); the out-of-range
lookup case is unreachable at the call sites, where `fuel + i = n`. -/
def scanCands (cands : List CandidateRef) (accept : Nat → CandidateRef → Bool)
    (start : Nat) : Nat → Nat → Option PathId
  | 0, _ => none
  | fuel + 1, i =>
    let k := (start + i) % cands.length
    match cands.get? k with
    | none => none
    | some c =>
      if accept k c then some c.id
      else scanCands cands accept start fuel (i + 1)

/-- Healthy test used by the scans: the seqlock read succeeds and reports
`healthy == true`. -/
def readHealthy (c : CandidateRef) : Bool :=
  match dp.read_slot c.slot with
  | some m => m.healthy
  | none => false

/-- Policy `RoundRobinPolicy`: one relaxed `uint32_t` counter. -/
structure RoundRobinPolicy where
  idx : Nat := 0
deriving DecidableEq, Repr

/-- Operation `RoundRobinPolicy::choose`: start at `idx++ % n`, scan for the first
healthy candidate, fall back to the start candidate; returns the chosen id
and the policy state after the `fetch_add`. -/
def RoundRobinPolicy.choose (p : RoundRobinPolicy) (cands : List CandidateRef)
    (_pkt : PacketContext) : PathId × RoundRobinPolicy :=
  let n := cands.length
  if h : n = 0 then (0, p)
  else
    let p2 : RoundRobinPolicy := { idx := (p.idx + 1) % 2 ^ 32 }
    let start := p.idx % n
    match scanCands cands (fun _ c => readHealthy c) start n 0 with
    | some id => (id, p2)
    | none =>
      ((cands.get ⟨start, Nat.mod_lt _ (Nat.pos_of_ne_zero h)⟩).id, p2)

/-- Policy `FlowHashPolicy`: optional skipping of unhealthy candidates. -/
structure FlowHashPolicy where
  skip_unhealthy : Bool := true
deriving DecidableEq, Repr

/-- Operation `FlowHashPolicy::choose`: base index `flow_hash % n`; pure mapping unless
`skip_unhealthy`, in which case scan forward for a healthy candidate with the
base as fallback. -/
def FlowHashPolicy.choose (p : FlowHashPolicy) (cands : List CandidateRef)
    (pkt : PacketContext) : PathId :=
  let n := cands.length
  if h : n = 0 then 0
  else
    let base := pkt.flow_hash % n
    have hb : base < cands.length := Nat.mod_lt _ (Nat.pos_of_ne_zero h)
    if !p.skip_unhealthy then (cands.get ⟨base, hb⟩).id
    else
      match scanCands cands (fun _ c => readHealthy c) base n 0 with
      | some id => id
      | none => (cands.get ⟨base, hb⟩).id

/-- Configuration `LatencyAwareConfig` (defaults from the header). -/
structure LatencyAwareConfig where
  tie_margin_us : Nat := 200
  explore_ppm : Nat := 0
  prefer_qos_class : Bool := true
deriving DecidableEq, Repr

/-- Policy `LatencyAwarePolicy`: configuration plus the exploration salt
(`uint32_t`, initial `0xA5A55A5A`). -/
structure LatencyAwarePolicy where
  cfg : LatencyAwareConfig := {}
  salt : Nat := 0xA5A55A5A
deriving DecidableEq, Repr

/-- Healthy pass of `LatencyAwarePolicy::choose`: walk the candidates at
offset `i`, carrying the best `(index, metrics)` found so far.  A readable,
healthy candidate replaces the best when its RTT is strictly smaller, or on
the QoS tie-break (`uint32_t` addition in the margin test wraps). -/
def laPass (pkt : PacketContext) (cfg : LatencyAwareConfig) :
    List CandidateRef → Nat → Option (Nat × PathMetrics) → Option (Nat × PathMetrics)
  | [], _, best => best
  | c :: rest, i, best =>
    match dp.read_slot c.slot with
    | none => laPass pkt cfg rest (i + 1) best
    | some m =>
      if !m.healthy then laPass pkt cfg rest (i + 1) best
      else
        match best with
        | none => laPass pkt cfg rest (i + 1) (some (i, m))
        | some (bi, bm) =>
          if m.rtt_us < bm.rtt_us then laPass pkt cfg rest (i + 1) (some (i, m))
          else if cfg.prefer_qos_class
              && (m.rtt_us ≤ (bm.rtt_us + cfg.tie_margin_us) % 2 ^ 32)
              && qos_match m.qos_class pkt.dscp
              && !qos_match bm.qos_class pkt.dscp then
            laPass pkt cfg rest (i + 1) (some (i, m))
          else laPass pkt cfg rest (i + 1) (some (bi, bm))

/-- Unhealthy fallback pass of `LatencyAwarePolicy::choose`: minimum RTT over
the candidates whose seqlock read succeeds, regardless of health. -/
def laMin : List CandidateRef → Nat → Option (Nat × PathMetrics) → Option (Nat × PathMetrics)
  | [], _, acc => acc
  | c :: rest, i, acc =>
    match dp.read_slot c.slot with
    | none => laMin rest (i + 1) acc
    | some m =>
      match acc with
      | none => laMin rest (i + 1) (some (i, m))
      | some (bi, bm) =>
        if m.rtt_us < bm.rtt_us then laMin rest (i + 1) (some (i, m))
        else laMin rest (i + 1) (some (bi, bm))

/-- Operation `LatencyAwarePolicy::choose`: healthy min-RTT pass with QoS tie-break;
if no healthy candidate, absolute min-RTT over readable candidates with
`cands[0]` as last resort; otherwise optional exploration.  Returns the
chosen id together with the policy state (the salt is perturbed by `0x9E37`
on a successful exploration). -/
def LatencyAwarePolicy.choose (p : LatencyAwarePolicy) (cands : List CandidateRef)
    (pkt : PacketContext) : PathId × LatencyAwarePolicy :=
  if hne : cands.length = 0 then (0, p)
  else
    match laPass pkt p.cfg cands 0 none with
    | none =>
      match laMin cands 0 none with
      | some (idx, _) => ((cands.getD idx (cands.get ⟨0, Nat.pos_of_ne_zero hne⟩)).id, p)
      | none => ((cands.get ⟨0, Nat.pos_of_ne_zero hne⟩).id, p)
    | some (best, _) =>
      if p.cfg.explore_ppm ≠ 0 then
        let r1 := XorShift32.next_bounded (XorShift32.init (pkt.flow_hash ^^^ p.salt)) 1000000
        if r1.1 < p.cfg.explore_ppm then
          let n := cands.length
          let r2 := XorShift32.next_bounded r1.2 n
          match scanCands cands (fun k c => k ≠ best && readHealthy c) r2.1 n 0 with
          | some id => (id, { p with salt := (p.salt + 0x9E37) % 2 ^ 32 })
          | none => ((cands.getD best (cands.get ⟨0, Nat.pos_of_ne_zero hne⟩)).id, p)
        else ((cands.getD best (cands.get ⟨0, Nat.pos_of_ne_zero hne⟩)).id, p)
      else ((cands.getD best (cands.get ⟨0, Nat.pos_of_ne_zero hne⟩)).id, p)

/-- Health state of a PoP. -/
inductive Health where
  | Up
  | Degraded
  | Down
deriving DecidableEq, Repr

/-- Descriptor `Pop` (`pop.hpp`): id, region, textual IP, weight, health. -/
structure Pop where
  id : String
  region : String
  ip : String
  weight : Nat := 100
  health : Health := .Up
deriving DecidableEq, Repr

/-- Alias `PopList` for a list of pops. -/
abbrev PopList := List Pop

/-- Result codes of registry mutations. -/
inductive RegistryErr where
  | Ok
  | Exists
  | NotFound
  | Invalid
  | Capacity
deriving DecidableEq, Repr

-- Compile-time limits from `service_registry.hpp`.
namespace Limits

def MaxServices : Nat := 128

def MaxPopsPerService : Nat := 32

def MaxIdLen : Nat := 32

def MaxRegionLen : Nat := 32

def MaxIpLen : Nat := 64

end Limits

namespace ServiceRegistry

/-- Character class `[A-Za-z0-9_-]` of `ServiceRegistry::validateId`. -/
def validChar (c : Char) : Bool :=
  c = '_' || c = '-' || ('0' ≤ c && c ≤ '9') || ('A' ≤ c && c ≤ 'Z')
    || ('a' ≤ c && c ≤ 'z')

/-- Validator `ServiceRegistry::validateId`: non-empty, at most `maxLen`, at least 2
characters, all from the class. -/
def validateId (id : String) (maxLen : Nat) : Bool :=
  if id.data.length = 0 || id.data.length > maxLen then false
  else if id.data.length < 2 then false
  else id.data.all validChar

/-- Split a character list on every occurrence of the separator (the
character-level counterpart of `String::find`-based splitting). -/
def splitOnChar (sep : Char) : List Char → List (List Char)
  | [] => [[]]
  | c :: cs =>
    let r := splitOnChar sep cs
    if c = sep then [] :: r
    else
      match r with
      | [] => [[c]]
      | g :: gs => (c :: g) :: gs

/-- Decimal value of a digit list. -/
def digitsVal (l : List Char) : Nat :=
  l.foldl (fun acc c => acc * 10 + (c.toNat - '0'.toNat)) 0

/-- Modelled from the spec: one octet of a textual IPv4 address accepted by
`inet_pton(AF_INET, ...)` (libc, not in the repository): one to three decimal
digits with value at most 255. -/
def ipv4Octet (g : List Char) : Bool :=
  g.length ≥ 1 && g.length ≤ 3 && g.all Char.isDigit && digitsVal g ≤ 255

/-- Modelled from the spec: textual IPv4 acceptance of `inet_pton`: exactly
four dot-separated octets. -/
def parsesIPv4 (s : String) : Bool :=
  match splitOnChar '.' s.data with
  | [a, b, c, d] => ipv4Octet a && ipv4Octet b && ipv4Octet c && ipv4Octet d
  | _ => false

/-- One hexadecimal group of one to four digits in an IPv6 literal. -/
def hexGroupOk (g : List Char) : Bool :=
  g.length ≥ 1 && g.length ≤ 4
    && g.all (fun c => c.isDigit || ('a' ≤ c && c ≤ 'f') || ('A' ≤ c && c ≤ 'F'))

/-- Split at the first `::` occurrence, when there is one. -/
def splitDoubleColon : List Char → Option (List Char × List Char)
  | [] => none
  | ':' :: ':' :: rest => some ([], rest)
  | c :: rest =>
    match splitDoubleColon rest with
    | some (l, r) => some (c :: l, r)
    | none => none

/-- Split a (possibly empty) side of a `::` compression on `:` into hex
groups; `none` when some group is malformed. -/
def colonGroups (t : List Char) : Option (List (List Char)) :=
  if t.length = 0 then some []
  else
    let gs := splitOnChar ':' t
    if gs.all hexGroupOk then some gs else none

/-- Modelled from the spec: `inet_pton(AF_INET6, ...)` is libc code not in the
repository; the spec requires the IP to "parse as IPv6": eight colon-separated
hex groups, or at most seven groups around a single `::` compression
(embedded-IPv4 tails are not modelled; no claim depends on them). -/
def parsesIPv6 (s : String) : Bool :=
  match splitDoubleColon s.data with
  | some (l, r) =>
    match colonGroups l, colonGroups r with
    | some gl, some gr => gl.length + gr.length ≤ 7
    | _, _ => false
  | none =>
    match colonGroups s.data with
    | some gs => gs.length = 8
    | none => false

/-- Validator `ServiceRegistry::validateIp`: non-empty, at most `MaxIpLen`, and parses
as IPv4 or IPv6. -/
def validateIp (ip : String) : Bool :=
  if ip.data.length = 0 || ip.data.length > Limits.MaxIpLen then false
  else parsesIPv4 ip || parsesIPv6 ip

/-- Duplicate detection over the collected pop ids (the source sorts the ids
and runs `adjacent_find`; this decides the same property — some id occurs
twice). -/
def hasDupId : List String → Bool
  | [] => false
  | x :: xs => xs.contains x || hasDupId xs

/-- Validator `ServiceRegistry::validatePops`: list size 1..32, every pop's id, region
and IP valid, pop ids unique. -/
def validatePops (pops : PopList) : Bool :=
  if pops.length = 0 || pops.length > Limits.MaxPopsPerService then false
  else
    pops.all (fun p =>
        validateId p.id Limits.MaxIdLen && validateId p.region Limits.MaxRegionLen
          && validateIp p.ip)
      && !hasDupId (pops.map Pop.id)

/-- The registry map `ServiceId → PopList`, embedded as an association list
(the `unordered_map` iteration order is irrelevant to every claim). -/
abbrev Map := List (String × PopList)

/-- Insertion `unordered_map::emplace`: inserts only when the key is not yet present;
an existing mapping is left untouched. -/
def mapEmplace (m : Map) (k : String) (v : PopList) : Map :=
  if (m.lookup k).isSome then m else m ++ [(k, v)]

/-- Assignment through the iterator (`it->second = ...`): replace the value
at an existing key. -/
def mapAssign (m : Map) (k : String) (v : PopList) : Map :=
  m.map fun kv => if kv.1 = k then (kv.1, v) else kv

end ServiceRegistry

/-- State of `ServiceRegistry`: the published snapshot plus the version and the
cumulative counters.  The snapshot `shared_ptr` is initialised non-null and
only ever swapped for non-null maps, so the map is embedded directly (the
`!snap` branch of `mutate` is unreachable); counters are `uint64_t`,
unwrapped here. -/
structure ServiceRegistry where
  map : ServiceRegistry.Map := []
  version : Nat := 0
  adds : Nat := 0
  replaces : Nat := 0
  upserts : Nat := 0
  removes : Nat := 0
  failures : Nat := 0
deriving DecidableEq, Repr

namespace ServiceRegistry

/-- Internal mutation mode. -/
inductive Mode where
  | Add
  | Replace
  | Upsert
deriving DecidableEq, Repr

/-- Core `ServiceRegistry::mutate`: validate, check capacity (`size() >
MaxServices`, note the strict comparison), then dispatch on the mode; every
failure return increments the failure counter, every success publishes the
new map and bumps `version` and the op counter. -/
def mutate (r : ServiceRegistry) (mode : Mode) (service_id : String)
    (pops : PopList) : RegistryErr × ServiceRegistry :=
  if !validateId service_id Limits.MaxIdLen then
    (.Invalid, { r with failures := r.failures + 1 })
  else if !validatePops pops then
    (.Invalid, { r with failures := r.failures + 1 })
  else if r.map.length > Limits.MaxServices then
    (.Capacity, { r with failures := r.failures + 1 })
  else
    let exs := (r.map.lookup service_id).isSome
    match mode with
    | .Add =>
      if exs then (.Exists, { r with failures := r.failures + 1 })
      else
        (.Ok, { r with map := mapEmplace r.map service_id pops,
                       version := r.version + 1, adds := r.adds + 1 })
    | .Replace =>
      if !exs then (.NotFound, { r with failures := r.failures + 1 })
      else
        (.Ok, { r with map := mapAssign r.map service_id pops,
                       version := r.version + 1, replaces := r.replaces + 1 })
    | .Upsert =>
      (.Ok, { r with map := mapEmplace r.map service_id pops,
                     version := r.version + 1, upserts := r.upserts + 1 })

/-- Wrapper `ServiceRegistry::addService`. -/
def addService (r : ServiceRegistry) (service_id : String) (pops : PopList) :
    RegistryErr × ServiceRegistry :=
  mutate r .Add service_id pops

/-- Wrapper `ServiceRegistry::replaceService`. -/
def replaceService (r : ServiceRegistry) (service_id : String) (pops : PopList) :
    RegistryErr × ServiceRegistry :=
  mutate r .Replace service_id pops

/-- Wrapper `ServiceRegistry::upsertService`. -/
def upsertService (r : ServiceRegistry) (service_id : String) (pops : PopList) :
    RegistryErr × ServiceRegistry :=
  mutate r .Upsert service_id pops

end ServiceRegistry

/-- Policy choose function as stored in the binding: `fn(state, cands, pkt)`.
The C++ `void*` state is typed `S` in the embedding. -/
abbrev ChooseFn (S : Type) := S → List CandidateRef → PacketContext → PathId

/-- Cell `PolicyBinding`: seqlock cell holding the nullable function and state
pointers. -/
structure PolicyBinding (S : Type) where
  seq : Nat := 0
  fn : Option (ChooseFn S) := none
  state : Option S := none

namespace dp

/-- The bounded retry loop of `dp::snapshot_binding` against a quiescent
binding: skip while the counter is odd; on an even stable counter return
`fn && state` together with the two loaded pointers.  The loop exhausts with
`false` and nulled outputs. -/
def snapshot_binding (b : PolicyBinding S) : Nat → Bool × Option (ChooseFn S) × Option S
  | 0 => (false, none, none)
  | fuel + 1 =>
    let s1 := b.seq
    if s1 % 2 = 1 then snapshot_binding b fuel
    else
      let fn := b.fn
      let st := b.state
      let s2 := b.seq
      if s1 = s2 && s2 % 2 = 0 then (fn.isSome && st.isSome, fn, st)
      else snapshot_binding b fuel

/-- Operation `dp::select_path`: `snapshot_binding` with 4 retries; on failure return 0,
otherwise call the bound function on the bound state. -/
def select_path (b : PolicyBinding S) (cands : List CandidateRef)
    (pkt : PacketContext) : PathId :=
  match snapshot_binding b 4 with
  | (true, some f, some st) => f st cands pkt
  | _ => 0

end dp

end routing

end Alpha

open Alpha.routing in
/-- Concrete fixture: healthy candidate with id 9 on an even-sequence slot. -/
def cand9 : CandidateRef := { id := 9, slot := { seq := 0, metrics := { healthy := true } } }

open Alpha.routing in
/-- Concrete fixture: unreadable candidate (odd sequence counter) with id 4. -/
def cand4 : CandidateRef := { id := 4, slot := { seq := 1 } }
open Alpha.routing in
/-- Concrete fixture: a binding bound to the round-robin thunk over a fresh
policy state (`select_path` observes only the returned id, so the thunk
projects it). -/
def bindingRR : PolicyBinding RoundRobinPolicy :=
  { seq := 0,
    fn := some fun st cands pkt => (st.choose cands pkt).1,
    state := some {} }
-- The ring-order scenario of the test suite, step by step.
/-- Stage 1: capacity-8 ring after pushing `0..6`. -/
def ringStage1 : Bool × Alpha.mem.SpscQueue Int :=
  Alpha.mem.SpscQueue.pushAll (Alpha.mem.SpscQueue.new Int 8) [0, 1, 2, 3, 4, 5, 6]

/-- Stage 2: three pops from stage 1. -/
def ringStage2 : List Int × Alpha.mem.SpscQueue Int :=
  Alpha.mem.SpscQueue.popN ringStage1.2 3

/-- Stage 3: pushing `100..102` after stage 2. -/
def ringStage3 : Bool × Alpha.mem.SpscQueue Int :=
  Alpha.mem.SpscQueue.pushAll ringStage2.2 [100, 101, 102]
/-- Concrete fixture: a registry already holding exactly `MaxServices = 128`
services `s0 .. s127`. -/
def reg128 : Alpha.routing.ServiceRegistry :=
  { map := (List.range 128).map fun i => ("s" ++ toString i, []) }

/-- Concrete fixture: a valid single-pop list for capacity experiments. -/
def popNY : Alpha.routing.Pop := { id := "ny", region := "us-east", ip := "192.0.2.1" }
/-- Concrete fixture: first pop list published under key "svc". -/
def popA : Alpha.routing.Pop := { id := "a1", region := "ra", ip := "203.0.113.1" }

/-- Concrete fixture: replacement pop list for key "svc". -/
def popB : Alpha.routing.Pop := { id := "b1", region := "rb", ip := "203.0.113.2" }
/-- Concrete fixture: a pop whose region has length 1 (in the character
class), other fields valid. -/
def popRegion1 : Alpha.routing.Pop := { id := "ny", region := "r", ip := "192.0.2.1" }

theorem lor_one_of_even (s : Nat) (h : s % 2 = 0) : s ||| 1 = s + 1 := by
  have h1 : (s ||| 1) % 2 = 1 := by
    simp [Nat.or_mod_two_eq_one]
  have h2 : (s ||| 1) / 2 = s / 2 := by
    rw [Nat.or_div_two]
    norm_num
  omega

theorem mask_mod (x k : Nat) : x &&& (2 ^ k - 1) = x % 2 ^ k :=
  Nat.and_pow_two_sub_one_eq_mod x k

open Alpha.routing in
theorem read_slot_eq (s : MetricsSlot) :
    dp.read_slot s = if s.seq % 2 = 0 then some s.metrics else none := by
  rcases Nat.mod_two_eq_zero_or_one s.seq with h | h <;>
    simp [dp.read_slot, dp.load_metrics, dp.load_metrics_go, dp.iterAccept, h]

open Alpha.routing in
theorem scanCands_mem (cands : List CandidateRef) (accept : Nat → CandidateRef → Bool)
    (start : Nat) (idv : PathId) :
    ∀ fuel i, scanCands cands accept start fuel i = some idv →
      idv ∈ cands.map CandidateRef.id := by
  intro fuel
  induction fuel with
  | zero => intro i h; simp [scanCands] at h
  | succ fuel ih =>
    intro i h
    simp only [scanCands] at h
    cases hg : cands.get? ((start + i) % cands.length) with
    | none => rw [hg] at h; exact absurd h (by simp)
    | some c =>
      rw [hg] at h
      by_cases ha : accept ((start + i) % cands.length) c
      · simp [ha] at h
        exact h ▸ List.mem_map_of_mem CandidateRef.id (List.get?_mem hg)
      · simp [ha] at h
        exact ih (i + 1) h

theorem getD_mem_of_lt (l : List α) (j : Nat) (d : α) (h : j < l.length) :
    l.getD j d ∈ l := by
  rw [List.getD_eq_get?, List.get?_eq_get h]
  exact List.get_mem l j h

open Alpha.routing in
theorem laPass_some (pkt : PacketContext) (cfg : LatencyAwareConfig) :
    ∀ (cs : List CandidateRef) (i : Nat) (b : Option (Nat × PathMetrics))
      (j : Nat) (m : PathMetrics),
      laPass pkt cfg cs i b = some (j, m) →
      b = some (j, m) ∨ j < i + cs.length := by
  intro cs
  induction cs with
  | nil =>
    intro i b j m h
    simp only [laPass] at h
    exact Or.inl h
  | cons c rest ih =>
    intro i b j m h
    have step : ∀ b2, laPass pkt cfg rest (i + 1) b2 = some (j, m) →
        b2 = some (j, m) ∨ j < i + (c :: rest).length := by
      intro b2 h2
      rcases ih (i + 1) b2 j m h2 with hb | hbnd
      · exact Or.inl hb
      · right; simp only [List.length_cons]; omega
    have stepNew : ∀ mm2, laPass pkt cfg rest (i + 1) (some (i, mm2)) = some (j, m) →
        j < i + (c :: rest).length := by
      intro mm2 h2
      rcases step _ h2 with hb | hbnd
      · injection hb with hb2
        injection hb2 with hji _
        simp only [List.length_cons]; omega
      · exact hbnd
    cases hr : dp.read_slot c.slot with
    | none =>
      simp only [laPass, hr] at h
      exact step b h
    | some mm =>
      by_cases hh : mm.healthy
      · cases hb : b with
        | none =>
          simp only [laPass, hr, hh, Bool.not_true, Bool.false_eq_true, if_false, hb] at h
          exact Or.inr (stepNew mm h)
        | some pr =>
          obtain ⟨bi, bm⟩ := pr
          simp only [laPass, hr, hh, Bool.not_true, Bool.false_eq_true, if_false, hb] at h
          split at h
          · exact Or.inr (stepNew mm h)
          · split at h
            · exact Or.inr (stepNew mm h)
            · rcases step _ h with hb2 | hbnd
              · exact Or.inl hb2
              · exact Or.inr hbnd
      · have hh2 : (!mm.healthy) = true := by simp [hh]
        simp only [laPass, hr, hh2, if_true] at h
        exact step b h

open Alpha.routing in
theorem laMin_some :
    ∀ (cs : List CandidateRef) (i : Nat) (b : Option (Nat × PathMetrics))
      (j : Nat) (m : PathMetrics),
      laMin cs i b = some (j, m) →
      b = some (j, m) ∨ j < i + cs.length := by
  intro cs
  induction cs with
  | nil =>
    intro i b j m h
    simp only [laMin] at h
    exact Or.inl h
  | cons c rest ih =>
    intro i b j m h
    have step : ∀ b2, laMin rest (i + 1) b2 = some (j, m) →
        b2 = some (j, m) ∨ j < i + (c :: rest).length := by
      intro b2 h2
      rcases ih (i + 1) b2 j m h2 with hb | hbnd
      · exact Or.inl hb
      · right; simp only [List.length_cons]; omega
    have stepNew : ∀ mm2, laMin rest (i + 1) (some (i, mm2)) = some (j, m) →
        j < i + (c :: rest).length := by
      intro mm2 h2
      rcases step _ h2 with hb | hbnd
      · injection hb with hb2
        injection hb2 with hji _
        simp only [List.length_cons]; omega
      · exact hbnd
    cases hr : dp.read_slot c.slot with
    | none =>
      simp only [laMin, hr] at h
      exact step b h
    | some mm =>
      cases hb : b with
      | none =>
        simp only [laMin, hr, hb] at h
        exact Or.inr (stepNew mm h)
      | some pr =>
        obtain ⟨bi, bm⟩ := pr
        simp only [laMin, hr, hb] at h
        split at h
        · exact Or.inr (stepNew mm h)
        · rcases step _ h with hb2 | hbnd
          · exact Or.inl hb2
          · exact Or.inr hbnd

open Alpha.routing in
theorem laPass_unreadable (pkt : PacketContext) (cfg : LatencyAwareConfig) :
    ∀ (cs : List CandidateRef) (i : Nat) (b : Option (Nat × PathMetrics)),
      (∀ c ∈ cs, dp.read_slot c.slot = none) → laPass pkt cfg cs i b = b := by
  intro cs
  induction cs with
  | nil => intro i b _; simp [laPass]
  | cons c rest ih =>
    intro i b hall
    simp only [laPass]
    rw [hall c (by simp)]
    exact ih (i + 1) b fun c2 hc2 => hall c2 (by simp [hc2])

open Alpha.routing in
theorem laMin_unreadable :
    ∀ (cs : List CandidateRef) (i : Nat) (b : Option (Nat × PathMetrics)),
      (∀ c ∈ cs, dp.read_slot c.slot = none) → laMin cs i b = b := by
  intro cs
  induction cs with
  | nil => intro i b _; simp [laMin]
  | cons c rest ih =>
    intro i b hall
    simp only [laMin]
    rw [hall c (by simp)]
    exact ih (i + 1) b fun c2 hc2 => hall c2 (by simp [hc2])

open Alpha.routing in
theorem rr_choose_mem (p : RoundRobinPolicy) (cands : List CandidateRef)
    (pkt : PacketContext) (h : cands ≠ []) :
    (p.choose cands pkt).1 ∈ cands.map CandidateRef.id := by
  have hlen : ¬cands.length = 0 := fun h0 => h (List.length_eq_zero.mp h0)
  simp only [RoundRobinPolicy.choose, dif_neg hlen]
  cases hscan : scanCands cands (fun _ c => readHealthy c) (p.idx % cands.length)
      cands.length 0 with
  | some idv =>
    simp only [hscan]
    exact scanCands_mem _ _ _ _ _ _ hscan
  | none =>
    simp only [hscan]
    exact List.mem_map_of_mem CandidateRef.id (List.get_mem _ _ _)

open Alpha.routing in
theorem fh_choose_mem (p : FlowHashPolicy) (cands : List CandidateRef)
    (pkt : PacketContext) (h : cands ≠ []) :
    p.choose cands pkt ∈ cands.map CandidateRef.id := by
  have hlen : ¬cands.length = 0 := fun h0 => h (List.length_eq_zero.mp h0)
  simp only [FlowHashPolicy.choose, dif_neg hlen]
  by_cases hs : p.skip_unhealthy
  · simp only [hs, Bool.not_true, Bool.false_eq_true, if_false]
    cases hscan : scanCands cands (fun _ c => readHealthy c)
        (pkt.flow_hash % cands.length) cands.length 0 with
    | some idv =>
      simp only [hscan]
      exact scanCands_mem _ _ _ _ _ _ hscan
    | none =>
      simp only [hscan]
      exact List.mem_map_of_mem CandidateRef.id (List.get_mem _ _ _)
  · have hs2 : (!p.skip_unhealthy) = true := by simp [hs]
    simp only [hs2, if_true]
    exact List.mem_map_of_mem CandidateRef.id (List.get_mem _ _ _)

open Alpha.routing in
theorem la_choose_mem (p : LatencyAwarePolicy) (cands : List CandidateRef)
    (pkt : PacketContext) (h : cands ≠ []) :
    (p.choose cands pkt).1 ∈ cands.map CandidateRef.id := by
  have hlen : ¬cands.length = 0 := fun h0 => h (List.length_eq_zero.mp h0)
  simp only [LatencyAwarePolicy.choose, dif_neg hlen]
  cases hpass : laPass pkt p.cfg cands 0 none with
  | none =>
    cases hmin : laMin cands 0 none with
    | none =>
      simp only [hmin]
      exact List.mem_map_of_mem CandidateRef.id (List.get_mem _ _ _)
    | some pr =>
      obtain ⟨idx, mm⟩ := pr
      have hidx : idx < cands.length := by
        rcases laMin_some cands 0 none idx mm hmin with hb | hbnd
        · exact absurd hb (by simp)
        · simpa using hbnd
      simp only [hmin]
      exact List.mem_map_of_mem CandidateRef.id (getD_mem_of_lt _ _ _ hidx)
  | some pr =>
    obtain ⟨best, bm⟩ := pr
    have hbest : best < cands.length := by
      rcases laPass_some pkt p.cfg cands 0 none best bm hpass with hb | hbnd
      · exact absurd hb (by simp)
      · simpa using hbnd
    have hmem : (cands.getD best (cands.get ⟨0, Nat.pos_of_ne_zero hlen⟩)).id
        ∈ cands.map CandidateRef.id :=
      List.mem_map_of_mem CandidateRef.id (getD_mem_of_lt _ _ _ hbest)
    simp only [hpass]
    split
    · split
      · split
        · rename_i idv hscan
          exact scanCands_mem _ _ _ _ _ _ hscan
        · exact hmem
      · exact hmem
    · exact hmem

open Alpha.routing in
theorem la_choose_unreadable (p : LatencyAwarePolicy) (c0 : CandidateRef)
    (cs : List CandidateRef) (pkt : PacketContext)
    (hall : ∀ c ∈ c0 :: cs, dp.read_slot c.slot = none) :
    (p.choose (c0 :: cs) pkt).1 = c0.id := by
  have hlen : ¬(c0 :: cs).length = 0 := by simp
  have hpass := laPass_unreadable pkt p.cfg (c0 :: cs) 0 none hall
  have hmin := laMin_unreadable (c0 :: cs) 0 none hall
  simp only [LatencyAwarePolicy.choose, dif_neg hlen, hpass, hmin]
  rfl


/-- C3: every policy returns a member of the candidate list when it is
non-empty; `LatencyAware` returns the first candidate when no slot is
readable at all; and the empty candidate list yields 0 for all three
policies. -/
theorem claim_C3_policies_return_candidates
    (rr : Alpha.routing.RoundRobinPolicy) (fh : Alpha.routing.FlowHashPolicy)
    (la : Alpha.routing.LatencyAwarePolicy)
    (cands : List Alpha.routing.CandidateRef) (pkt : Alpha.routing.PacketContext) :
    ((rr.choose [] pkt).1 = 0 ∧ fh.choose [] pkt = 0 ∧ (la.choose [] pkt).1 = 0)
    ∧ (cands ≠ [] →
        (rr.choose cands pkt).1 ∈ cands.map Alpha.routing.CandidateRef.id
        ∧ fh.choose cands pkt ∈ cands.map Alpha.routing.CandidateRef.id
        ∧ (la.choose cands pkt).1 ∈ cands.map Alpha.routing.CandidateRef.id)
    ∧ (∀ c0 cs, cands = c0 :: cs →
        (∀ c ∈ cands, Alpha.routing.dp.read_slot c.slot = none) →
        (la.choose cands pkt).1 = c0.id) := by
  refine ⟨⟨?_, ?_, ?_⟩, fun h => ⟨rr_choose_mem rr cands pkt h,
    fh_choose_mem fh cands pkt h, la_choose_mem la cands pkt h⟩, ?_⟩
  · simp [Alpha.routing.RoundRobinPolicy.choose]
  · simp [Alpha.routing.FlowHashPolicy.choose]
  · simp [Alpha.routing.LatencyAwarePolicy.choose]
  · intro c0 cs hc hall
    subst hc
    exact la_choose_unreadable la c0 cs pkt hall

/-- Witness for C3 at concrete inputs: a single healthy candidate with id 9
is selected by all three policies, and a single unreadable (odd `seq`)
candidate with id 4 is still returned by `LatencyAware`. -/
theorem claim_C3_policies_return_candidates_witness :
    ((Alpha.routing.RoundRobinPolicy.choose {} [cand9] {}).1
      ∈ [cand9].map Alpha.routing.CandidateRef.id)
    ∧ (Alpha.routing.LatencyAwarePolicy.choose {} [cand4] {}).1 = 4 := by
  refine ⟨(claim_C3_policies_return_candidates {} {} {} _ {}).2.1 (by decide) |>.1, ?_⟩
  exact (claim_C3_policies_return_candidates {} {} {} _ {}).2.2
    cand4 [] rfl (by decide)


/-- C4 counterexample: with a policy bound (even seq, both pointers non-null)
`select_path` still returns 0 on the empty candidate list, because the bound
round-robin policy itself returns 0 there — so "returns 0 exactly when the
read fails or a pointer is null" does not hold in the only-if direction. -/
theorem claim_C4_select_path_cex :
    Alpha.routing.dp.select_path bindingRR [] {} = 0
    ∧ (Alpha.routing.dp.snapshot_binding bindingRR 4).1 = true
    ∧ bindingRR.fn.isSome = true
    ∧ bindingRR.state.isSome = true :=
  ⟨rfl, rfl, rfl, rfl⟩

/-- C4 amended: `select_path` returns 0 whenever the bounded seqlock read
fails (the counter stays odd through the retries) or the snapshotted `fn` or
`state` pointer is null; otherwise it returns `fn(state, cands, pkt)` — which
may itself be 0. -/
theorem claim_C4_select_path_amended (S : Type) (b : Alpha.routing.PolicyBinding S)
    (cands : List Alpha.routing.CandidateRef) (pkt : Alpha.routing.PacketContext) :
    Alpha.routing.dp.select_path b cands pkt =
      match b.fn, b.state with
      | some f, some st => if b.seq % 2 = 1 then 0 else f st cands pkt
      | _, _ => 0 := by
  rcases Nat.mod_two_eq_zero_or_one b.seq with hseq | hseq
  · have hne : ¬b.seq % 2 = 1 := by omega
    cases hf : b.fn <;> cases hs : b.state <;>
      simp [Alpha.routing.dp.select_path, Alpha.routing.dp.snapshot_binding,
        hseq, hne, hf, hs]
  · cases hf : b.fn <;> cases hs : b.state <;>
      simp [Alpha.routing.dp.select_path, Alpha.routing.dp.snapshot_binding,
        hseq, hf, hs]

open Alpha.routing in
theorem iterAccept_true {o : dp.SeqObs} (h : dp.iterAccept o = true) :
    o.s1 = o.s2 ∧ o.s2 % 2 = 0 := by
  by_cases h1 : o.s1 % 2 = 1
  · simp [dp.iterAccept, h1] at h
  · simp [dp.iterAccept, h1] at h
    exact h

/-- C7: the seqlock protocol on `MetricsSlot`.  `update_metrics` advances an
even counter by exactly 2 (in the wrapping `uint32_t` arithmetic) and leaves
it even; `load_metrics` inspects only the first 4 iterations' observations,
accepts a payload only when the two surrounding counter reads are equal and
even, and reports failure when all 4 iterations reject. -/
theorem claim_C7_seqlock_protocol :
    (∀ s0 : Nat, s0 % 2 = 0 →
        Alpha.routing.cp.update_seq s0 = (s0 + 2) % 2 ^ 32
        ∧ Alpha.routing.cp.update_seq s0 % 2 = 0)
    ∧ (∀ sched sched2 : Nat → Alpha.routing.dp.SeqObs,
        (∀ i < 4, sched i = sched2 i) →
        Alpha.routing.dp.load_metrics sched = Alpha.routing.dp.load_metrics sched2)
    ∧ (∀ (sched : Nat → Alpha.routing.dp.SeqObs) (m : Alpha.routing.PathMetrics),
        Alpha.routing.dp.load_metrics sched = some m →
        ∃ i, i < 4 ∧ (sched i).s1 = (sched i).s2 ∧ (sched i).s2 % 2 = 0
          ∧ m = (sched i).payload)
    ∧ (∀ sched : Nat → Alpha.routing.dp.SeqObs,
        (∀ i < 4, Alpha.routing.dp.iterAccept (sched i) = false) →
        Alpha.routing.dp.load_metrics sched = none) := by
  refine ⟨?_, ?_, ?_, ?_⟩
  · intro s0 h
    have hlor : s0 ||| 1 = s0 + 1 := lor_one_of_even s0 h
    constructor
    · simp [Alpha.routing.cp.update_seq, hlor]
    · have : Alpha.routing.cp.update_seq s0 = (s0 + 2) % 2 ^ 32 := by
        simp [Alpha.routing.cp.update_seq, hlor]
      rw [this, Nat.mod_mod_of_dvd _ (by norm_num)]
      omega
  · intro sched sched2 hi
    simp only [Alpha.routing.dp.load_metrics, Alpha.routing.dp.load_metrics_go,
      hi 0 (by norm_num), hi 1 (by norm_num), hi 2 (by norm_num), hi 3 (by norm_num)]
  · intro sched m h
    simp only [Alpha.routing.dp.load_metrics, Alpha.routing.dp.load_metrics_go] at h
    by_cases h0 : Alpha.routing.dp.iterAccept (sched 0)
    · rw [if_pos h0] at h
      exact ⟨0, by norm_num, (iterAccept_true h0).1, (iterAccept_true h0).2,
        (Option.some_inj.mp h).symm⟩
    · rw [if_neg h0] at h
      by_cases h1 : Alpha.routing.dp.iterAccept (sched 1)
      · rw [if_pos h1] at h
        exact ⟨1, by norm_num, (iterAccept_true h1).1, (iterAccept_true h1).2,
          (Option.some_inj.mp h).symm⟩
      · rw [if_neg h1] at h
        by_cases h2 : Alpha.routing.dp.iterAccept (sched 2)
        · rw [if_pos h2] at h
          exact ⟨2, by norm_num, (iterAccept_true h2).1, (iterAccept_true h2).2,
            (Option.some_inj.mp h).symm⟩
        · rw [if_neg h2] at h
          by_cases h3 : Alpha.routing.dp.iterAccept (sched 3)
          · rw [if_pos h3] at h
            exact ⟨3, by norm_num, (iterAccept_true h3).1, (iterAccept_true h3).2,
              (Option.some_inj.mp h).symm⟩
          · rw [if_neg h3] at h
            exact absurd h (by simp)
  · intro sched hall
    simp only [Alpha.routing.dp.load_metrics, Alpha.routing.dp.load_metrics_go,
      hall 0 (by norm_num), hall 1 (by norm_num), hall 2 (by norm_num),
      hall 3 (by norm_num), Bool.false_eq_true, if_false]

/-- Witness for C7: updating an even counter 6 advances it to 8 (still even),
and a schedule that always shows the odd counter 3 makes `load_metrics`
fail. -/
theorem claim_C7_seqlock_protocol_witness :
    Alpha.routing.cp.update_seq 6 = 8
    ∧ Alpha.routing.dp.load_metrics
        (fun _ => { s1 := 3, payload := {}, s2 := 3 }) = none := by
  constructor
  · have h := (claim_C7_seqlock_protocol.1 6 (by norm_num)).1
    simpa using h
  · exact claim_C7_seqlock_protocol.2.2.2 _ (by intro i _; decide)

theorem mask_lt_self (x k : Nat) (h : x < 2 ^ k) : x &&& (2 ^ k - 1) = x := by
  rw [mask_mod]
  exact Nat.mod_eq_of_lt h

open Alpha.mem in
theorem pushAll_fills (T : Type) (k : Nat) :
    ∀ (vs : List T) (q : SpscQueue T),
      q.head = 0 → q.mask = 2 ^ k - 1 →
      q.tail + vs.length ≤ 2 ^ k - 1 →
      (SpscQueue.pushAll q vs).1 = true
      ∧ (SpscQueue.pushAll q vs).2.head = 0
      ∧ (SpscQueue.pushAll q vs).2.tail = q.tail + vs.length
      ∧ (SpscQueue.pushAll q vs).2.mask = q.mask := by
  intro vs
  induction vs with
  | nil =>
    intro q hh hm ht
    simp [SpscQueue.pushAll, hh]
  | cons v rest ih =>
    intro q hh hm ht
    have hlen : q.tail + 1 + rest.length ≤ 2 ^ k - 1 := by
      simp only [List.length_cons] at ht
      omega
    have hmask : (q.tail + 1) &&& q.mask = q.tail + 1 := by
      rw [hm]
      exact mask_lt_self _ _ (by have := Nat.pos_pow_of_pos k (by norm_num : 0 < 2); omega)
    have hne : ¬(q.tail + 1 = q.head) := by
      rw [hh]
      omega
    simp only [SpscQueue.pushAll, SpscQueue.push, hmask]
    rw [if_neg hne]
    obtain ⟨h1, h2, h3, h4⟩ := ih
      { q with buf := fun i => if i = q.tail then some v else q.buf i,
               tail := q.tail + 1 }
      hh hm (by show q.tail + 1 + rest.length ≤ 2 ^ k - 1; exact hlen)
    dsimp only at h1 h2 h3 h4 ⊢
    refine ⟨by simp [h1], h2, ?_, by rw [h4, hm]⟩
    rw [h3]
    simp only [List.length_cons]
    omega

/-- C5: an SPSC ring of power-of-two capacity `C = 2 ^ k` holds at most
`C - 1` elements — after `C - 1` successful pushes with no pops, the `C`-th
push returns full (`false`) and leaves the whole queue state, buffer and tail
index included, unchanged. -/
theorem claim_C5_spsc_capacity (T : Type) (k : Nat) (vs : List T) (v : T)
    (hlen : vs.length = 2 ^ k - 1) :
    (Alpha.mem.SpscQueue.pushAll (Alpha.mem.SpscQueue.new T (2 ^ k)) vs).1 = true
    ∧ Alpha.mem.SpscQueue.push
        ((Alpha.mem.SpscQueue.pushAll (Alpha.mem.SpscQueue.new T (2 ^ k)) vs).2) v
      = (false, (Alpha.mem.SpscQueue.pushAll (Alpha.mem.SpscQueue.new T (2 ^ k)) vs).2) := by
  have hpow : 0 < 2 ^ k := Nat.pos_pow_of_pos k (by norm_num)
  obtain ⟨h1, h2, h3, h4⟩ := pushAll_fills T k vs (Alpha.mem.SpscQueue.new T (2 ^ k))
    rfl rfl (by simp [Alpha.mem.SpscQueue.new, hlen])
  refine ⟨h1, ?_⟩
  have hwrap : ((Alpha.mem.SpscQueue.pushAll (Alpha.mem.SpscQueue.new T (2 ^ k)) vs).2.tail + 1)
      &&& (Alpha.mem.SpscQueue.pushAll (Alpha.mem.SpscQueue.new T (2 ^ k)) vs).2.mask = 0 := by
    rw [h3, h4]
    show (0 + vs.length + 1) &&& (Alpha.mem.SpscQueue.new T (2 ^ k)).mask = 0
    have hmk : (Alpha.mem.SpscQueue.new T (2 ^ k)).mask = 2 ^ k - 1 := rfl
    have hsum : 0 + (2 ^ k - 1) + 1 = 2 ^ k := by omega
    rw [hmk, hlen, mask_mod, hsum, Nat.mod_self]
  simp only [Alpha.mem.SpscQueue.push, hwrap, h2]
  simp

/-- Witness for C5 at capacity 8: seven pushes succeed, the eighth returns
full and leaves the state unchanged. -/
theorem claim_C5_spsc_capacity_witness :
    (Alpha.mem.SpscQueue.pushAll (Alpha.mem.SpscQueue.new Nat (2 ^ 3))
        [0, 1, 2, 3, 4, 5, 6]).1 = true
    ∧ Alpha.mem.SpscQueue.push
        ((Alpha.mem.SpscQueue.pushAll (Alpha.mem.SpscQueue.new Nat (2 ^ 3))
            [0, 1, 2, 3, 4, 5, 6]).2) 99
      = (false, (Alpha.mem.SpscQueue.pushAll (Alpha.mem.SpscQueue.new Nat (2 ^ 3))
            [0, 1, 2, 3, 4, 5, 6]).2) :=
  claim_C5_spsc_capacity Nat 3 [0, 1, 2, 3, 4, 5, 6] 99 (by decide)


/-- C6: the concrete 1P1C ring-order scenario on capacity 8 — pushes `0..6`
all succeed, the first three pops yield `0,1,2`, pushes `100..102` succeed,
and draining yields exactly `[3,4,5,6,100,101,102]`: FIFO order, no loss. -/
theorem claim_C6_spsc_fifo_order :
    ringStage1.1 = true
    ∧ ringStage2.1 = [0, 1, 2]
    ∧ ringStage3.1 = true
    ∧ Alpha.mem.SpscQueue.drain ringStage3.2 8 = [3, 4, 5, 6, 100, 101, 102] := by
  refine ⟨?_, ?_, ?_, ?_⟩ <;> decide

theorem mod_eq_mod_iff (C a b : Nat) (hb : b ≤ a) (hub : a - b ≤ C) :
    a % C = b % C ↔ (a = b ∨ a - b = C) := by
  constructor
  · intro h
    have hd : C ∣ a - b := (Nat.modEq_iff_dvd' hb).mp h.symm
    rcases Nat.eq_zero_or_pos (a - b) with h0 | hpos
    · left; omega
    · right
      have := Nat.le_of_dvd hpos hd
      omega
  · rintro (rfl | hC)
    · rfl
    · have : a = b + C := by omega
      rw [this, Nat.add_mod_right]

theorem approx_formula (C p qn : Nat) (hC : 0 < C) (hle : qn ≤ p)
    (hlt : p - qn < C) :
    (p % C + C - qn % C) % C = p - qn := by
  have hr : qn % C < C := Nat.mod_lt _ hC
  have h1 : p % C + C - qn % C = p % C + (C - qn % C) := by omega
  rw [h1, Nat.mod_add_mod]
  have h2 : qn % C ≤ qn := Nat.mod_le qn C
  have h3 : C * (qn / C) + qn % C = qn := Nat.div_add_mod qn C
  have h4 : p + (C - qn % C) = p - qn + C * (qn / C + 1) := by
    rw [Nat.mul_succ]
    omega
  rw [h4, Nat.add_mul_mod_self_left, Nat.mod_eq_of_lt hlt]

open Alpha.mem in
theorem runOps_inv (T : Type) (k : Nat) :
    ∀ (ops : List (SpscQueue.Op T)) (q : SpscQueue T) (p0 q0 : Nat)
      (qf : SpscQueue T) (dp dq : Nat),
      q.capacity = 2 ^ k → q.mask = 2 ^ k - 1 →
      q.head = q0 % 2 ^ k → q.tail = p0 % 2 ^ k →
      q0 ≤ p0 → p0 - q0 ≤ 2 ^ k - 1 →
      (∀ d, d < p0 - q0 → (q.buf ((q0 + d) % 2 ^ k)).isSome = true) →
      SpscQueue.runOps q ops = (qf, dp, dq) →
      qf.capacity = 2 ^ k ∧ qf.mask = 2 ^ k - 1
      ∧ qf.head = (q0 + dq) % 2 ^ k ∧ qf.tail = (p0 + dp) % 2 ^ k
      ∧ q0 + dq ≤ p0 + dp ∧ (p0 + dp) - (q0 + dq) ≤ 2 ^ k - 1
      ∧ (∀ d, d < (p0 + dp) - (q0 + dq) →
          (qf.buf ((q0 + dq + d) % 2 ^ k)).isSome = true) := by
  intro ops
  induction ops with
  | nil =>
    intro q p0 q0 qf dp dq hc hm hh ht hle hub hocc hrun
    simp only [SpscQueue.runOps, Prod.mk.injEq] at hrun
    obtain ⟨rfl, rfl, rfl⟩ := hrun
    refine ⟨hc, hm, by simpa using hh, by simpa using ht, by omega, by omega, ?_⟩
    intro d hd
    have := hocc d (by omega)
    simpa using this
  | cons op rest ih =>
    intro q p0 q0 qf dp dq hc hm hh ht hle hub hocc hrun
    have hC : 0 < 2 ^ k := Nat.pos_pow_of_pos k (by norm_num)
    cases op with
    | push v =>
      have hnext : (q.tail + 1) &&& q.mask = (p0 + 1) % 2 ^ k := by
        rw [ht, hm, mask_mod, Nat.mod_add_mod]
      by_cases hfull : p0 - q0 = 2 ^ k - 1
      · have hcond : (q.tail + 1) &&& q.mask = q.head := by
          rw [hnext, hh]
          exact (mod_eq_mod_iff _ _ _ (by omega) (by omega)).mpr (Or.inr (by omega))
        have hpush : q.push v = (false, q) := by
          simp only [SpscQueue.push]
          rw [if_pos hcond]
        simp only [SpscQueue.runOps, hpush] at hrun
        rcases hrest : SpscQueue.runOps q rest with ⟨qf2, dp2, dq2⟩
        rw [hrest] at hrun
        simp [Prod.mk.injEq] at hrun
        obtain ⟨rfl, rfl, rfl⟩ := hrun
        obtain ⟨c1, c2, c3, c4, c5, c6, c7⟩ :=
          ih q p0 q0 qf2 dp2 dq2 hc hm hh ht hle hub hocc hrest
        refine ⟨c1, c2, c3, by simpa using c4, by omega, by omega, ?_⟩
        intro d hd
        exact c7 d (by omega)
      · have hcond : ¬((q.tail + 1) &&& q.mask = q.head) := by
          rw [hnext, hh]
          intro hx
          rcases (mod_eq_mod_iff _ _ _ (by omega) (by omega)).mp hx with h1 | h2 <;> omega
        have hpush : q.push v =
            (true, { q with buf := fun i => if i = q.tail then some v else q.buf i,
                            tail := (q.tail + 1) &&& q.mask }) := by
          simp only [SpscQueue.push]
          rw [if_neg hcond]
        simp only [SpscQueue.runOps, hpush] at hrun
        rcases hrest : SpscQueue.runOps
            { q with buf := fun i => if i = q.tail then some v else q.buf i,
                     tail := (q.tail + 1) &&& q.mask } rest with ⟨qf2, dp2, dq2⟩
        rw [hrest] at hrun
        simp [Prod.mk.injEq] at hrun
        obtain ⟨rfl, rfl, rfl⟩ := hrun
        have hocc2 : ∀ d, d < (p0 + 1) - q0 →
            ((fun i => if i = q.tail then some v else q.buf i) ((q0 + d) % 2 ^ k)).isSome
              = true := by
          intro d hd
          by_cases hde : d = p0 - q0
          · have hidx : (q0 + d) % 2 ^ k = q.tail := by
              rw [ht]
              congr 1
              omega
            simp [hidx]
          · have hdlt : d < p0 - q0 := by omega
            have hne : (q0 + d) % 2 ^ k ≠ q.tail := by
              rw [ht]
              intro hx
              rcases (mod_eq_mod_iff (2 ^ k) p0 (q0 + d) (by omega) (by omega)).mp hx.symm
                with h1 | h2 <;> omega
            have := hocc d hdlt
            simp only [hne, if_false]
            simpa using this
        obtain ⟨c1, c2, c3, c4, c5, c6, c7⟩ :=
          ih { q with buf := fun i => if i = q.tail then some v else q.buf i,
                      tail := (q.tail + 1) &&& q.mask } (p0 + 1) q0 qf2 dp2 dq2
            hc hm hh hnext (by omega) (by omega) hocc2 hrest
        refine ⟨c1, c2, c3, ?_, by omega, by omega, ?_⟩
        · rw [c4]
          congr 1
          omega
        · intro d hd
          have := c7 d (by omega)
          exact this
    | pop =>
      by_cases hemp : p0 = q0
      · have hcond : q.head = q.tail := by
          rw [hh, ht, hemp]
        have hpop : q.pop = (none, q) := by
          simp only [SpscQueue.pop]
          rw [if_pos hcond]
        simp only [SpscQueue.runOps, hpop] at hrun
        rcases hrest : SpscQueue.runOps q rest with ⟨qf2, dp2, dq2⟩
        rw [hrest] at hrun
        simp [Prod.mk.injEq] at hrun
        obtain ⟨rfl, rfl, rfl⟩ := hrun
        obtain ⟨c1, c2, c3, c4, c5, c6, c7⟩ :=
          ih q p0 q0 qf2 dp2 dq2 hc hm hh ht hle hub hocc hrest
        refine ⟨c1, c2, by simpa using c3, c4, by omega, by omega, ?_⟩
        intro d hd
        exact c7 d (by omega)
      · have hcond : ¬(q.head = q.tail) := by
          rw [hh, ht]
          intro hx
          rcases (mod_eq_mod_iff (2 ^ k) p0 q0 (by omega) (by omega)).mp hx.symm
            with h1 | h2 <;> omega
        have hpop : q.pop = (q.buf q.head, { q with head := (q.head + 1) &&& q.mask }) := by
          simp only [SpscQueue.pop]
          rw [if_neg hcond]
        have hsome : (q.buf q.head).isSome = true := by
          rw [hh]
          have := hocc 0 (by omega)
          simpa using this
        simp only [SpscQueue.runOps, hpop, hsome] at hrun
        rcases hrest : SpscQueue.runOps
            { q with head := (q.head + 1) &&& q.mask } rest with ⟨qf2, dp2, dq2⟩
        rw [hrest] at hrun
        simp [Prod.mk.injEq] at hrun
        obtain ⟨rfl, rfl, rfl⟩ := hrun
        have hhead2 : (q.head + 1) &&& q.mask = (q0 + 1) % 2 ^ k := by
          rw [hh, hm, mask_mod, Nat.mod_add_mod]
        have hocc2 : ∀ d, d < p0 - (q0 + 1) →
            (q.buf ((q0 + 1 + d) % 2 ^ k)).isSome = true := by
          intro d hd
          have := hocc (d + 1) (by omega)
          have harg : q0 + 1 + d = q0 + (d + 1) := by omega
          rw [harg]
          exact this
        obtain ⟨c1, c2, c3, c4, c5, c6, c7⟩ :=
          ih { q with head := (q.head + 1) &&& q.mask } p0 (q0 + 1) qf2 dp2 dq2
            hc hm hhead2 ht (by omega) (by omega) hocc2 hrest
        refine ⟨c1, c2, ?_, c4, by omega, by omega, ?_⟩
        · rw [c3]
          congr 1
          omega
        · intro d hd
          have := c7 d (by omega)
          convert this using 4
          all_goals omega

/-- C10: in any quiescent SPSC state reached from a fresh power-of-two ring
by a sequence of operations with `p` successful pushes and `qn` successful
pops, `qn ≤ p` and `p - qn ≤ C - 1` hold, `approx_size` returns exactly
`p - qn`, and `empty` returns true exactly when `p = qn`. -/
theorem claim_C10_spsc_observers (T : Type) (k : Nat)
    (ops : List (Alpha.mem.SpscQueue.Op T)) (qf : Alpha.mem.SpscQueue T)
    (p qn : Nat)
    (hrun : Alpha.mem.SpscQueue.runOps (Alpha.mem.SpscQueue.new T (2 ^ k)) ops
      = (qf, p, qn)) :
    qn ≤ p ∧ p - qn ≤ 2 ^ k - 1
    ∧ Alpha.mem.SpscQueue.approx_size qf = p - qn
    ∧ (Alpha.mem.SpscQueue.empty qf = true ↔ p = qn) := by
  have hC : 0 < 2 ^ k := Nat.pos_pow_of_pos k (by norm_num)
  obtain ⟨c1, c2, c3, c4, c5, c6, _⟩ :=
    runOps_inv T k ops (Alpha.mem.SpscQueue.new T (2 ^ k)) 0 0 qf p qn
      rfl rfl (Nat.zero_mod _).symm (Nat.zero_mod _).symm (Nat.le_refl 0)
      (by omega) (by omega) hrun
  have hle : qn ≤ p := by omega
  have hub : p - qn ≤ 2 ^ k - 1 := by omega
  refine ⟨hle, hub, ?_, ?_⟩
  · rw [Alpha.mem.SpscQueue.approx_size, c4, c3, c1, c2]
    simp only [Nat.zero_add]
    rw [mask_mod]
    exact approx_formula _ _ _ hC hle (by omega)
  · rw [Alpha.mem.SpscQueue.empty, c3, c4]
    simp only [Nat.zero_add, beq_iff_eq]
    constructor
    · intro hx
      rcases (mod_eq_mod_iff (2 ^ k) p qn hle (by omega)).mp hx.symm with h1 | h2
      · exact h1
      · omega
    · intro hx
      rw [hx]

/-- Witness for C10: two pushes and one pop on a capacity-4 ring leave one
element; `approx_size` reports 1 and `empty` is false. -/
theorem claim_C10_spsc_observers_witness :
    (1 : Nat) ≤ 2 ∧ 2 - 1 ≤ 2 ^ 2 - 1
    ∧ Alpha.mem.SpscQueue.approx_size
        (Alpha.mem.SpscQueue.runOps (Alpha.mem.SpscQueue.new Nat (2 ^ 2))
          [.push 5, .push 6, .pop]).1 = 2 - 1
    ∧ (Alpha.mem.SpscQueue.empty
        (Alpha.mem.SpscQueue.runOps (Alpha.mem.SpscQueue.new Nat (2 ^ 2))
          [.push 5, .push 6, .pop]).1 = true ↔ (2 : Nat) = 1) :=
  claim_C10_spsc_observers Nat 2 [.push 5, .push 6, .pop] _ 2 1 rfl

/-- C8: registry mutations are atomic on error — whenever `mutate` (the common
core of `addService`, `replaceService` and `upsertService`) returns anything
other than `Ok`, the published map and the version counter are unchanged, and
an `Invalid` return increments the failure counter. -/
theorem claim_C8_registry_error_atomicity (r : Alpha.routing.ServiceRegistry)
    (mode : Alpha.routing.ServiceRegistry.Mode) (service_id : String)
    (pops : Alpha.routing.PopList) (e : Alpha.routing.RegistryErr)
    (r2 : Alpha.routing.ServiceRegistry)
    (hmut : Alpha.routing.ServiceRegistry.mutate r mode service_id pops = (e, r2)) :
    (e ≠ .Ok → r2.map = r.map ∧ r2.version = r.version)
    ∧ (e = .Invalid → r2.failures = r.failures + 1) := by
  by_cases h1 : Alpha.routing.ServiceRegistry.validateId service_id
      Alpha.routing.Limits.MaxIdLen = true
  · by_cases h2 : Alpha.routing.ServiceRegistry.validatePops pops = true
    · by_cases h3 : r.map.length > Alpha.routing.Limits.MaxServices
      · simp only [Alpha.routing.ServiceRegistry.mutate, h1, h2, h3] at hmut
        simp at hmut
        obtain ⟨rfl, rfl⟩ := hmut
        exact ⟨fun _ => ⟨rfl, rfl⟩, fun h => absurd h (by decide)⟩
      · cases mode with
        | Add =>
          by_cases h4 : (r.map.lookup service_id).isSome = true
          · simp only [Alpha.routing.ServiceRegistry.mutate, h1, h2, h3, h4] at hmut
            simp at hmut
            obtain ⟨rfl, rfl⟩ := hmut
            exact ⟨fun _ => ⟨rfl, rfl⟩, fun h => absurd h (by decide)⟩
          · simp only [Alpha.routing.ServiceRegistry.mutate, h1, h2, h3, h4] at hmut
            simp at hmut
            obtain ⟨rfl, rfl⟩ := hmut
            exact ⟨fun h => absurd rfl h, fun h => absurd h (by decide)⟩
        | Replace =>
          by_cases h4 : (r.map.lookup service_id).isSome = true
          · simp only [Alpha.routing.ServiceRegistry.mutate, h1, h2, h3, h4] at hmut
            simp at hmut
            obtain ⟨rfl, rfl⟩ := hmut
            exact ⟨fun h => absurd rfl h, fun h => absurd h (by decide)⟩
          · simp only [Alpha.routing.ServiceRegistry.mutate, h1, h2, h3, h4] at hmut
            simp at hmut
            obtain ⟨rfl, rfl⟩ := hmut
            exact ⟨fun _ => ⟨rfl, rfl⟩, fun h => absurd h (by decide)⟩
        | Upsert =>
          simp only [Alpha.routing.ServiceRegistry.mutate, h1, h2, h3] at hmut
          simp at hmut
          obtain ⟨rfl, rfl⟩ := hmut
          exact ⟨fun h => absurd rfl h, fun h => absurd h (by decide)⟩
    · simp only [Alpha.routing.ServiceRegistry.mutate, h1, h2] at hmut
      simp at hmut
      obtain ⟨rfl, rfl⟩ := hmut
      exact ⟨fun _ => ⟨rfl, rfl⟩, fun _ => rfl⟩
  · simp only [Alpha.routing.ServiceRegistry.mutate, h1] at hmut
    simp at hmut
    obtain ⟨rfl, rfl⟩ := hmut
    exact ⟨fun _ => ⟨rfl, rfl⟩, fun _ => rfl⟩

/-- Witness for C8: adding with the too-short id "x" to a fresh registry
fails `Invalid`, leaving map and version unchanged and bumping failures. -/
theorem claim_C8_registry_error_atomicity_witness :
    ((Alpha.routing.RegistryErr.Invalid ≠ Alpha.routing.RegistryErr.Ok →
      (Alpha.routing.ServiceRegistry.mutate {} .Add "x" []).2.map
          = ({} : Alpha.routing.ServiceRegistry).map
      ∧ (Alpha.routing.ServiceRegistry.mutate {} .Add "x" []).2.version
          = ({} : Alpha.routing.ServiceRegistry).version)
    ∧ (Alpha.routing.RegistryErr.Invalid = Alpha.routing.RegistryErr.Invalid →
      (Alpha.routing.ServiceRegistry.mutate {} .Add "x" []).2.failures
          = ({} : Alpha.routing.ServiceRegistry).failures + 1)) :=
  claim_C8_registry_error_atomicity {} .Add "x" [] .Invalid _ rfl


set_option maxRecDepth 10000 in
/-- C1 (code bug witness): with exactly `MaxServices = 128` services present,
`addService` of a fresh valid id returns `Ok` and inserts a 129th service —
the capacity check `size() > MaxServices` is off by one, so the claimed
`Capacity` rejection never happens at 128. -/
theorem claim_C1_add_at_capacity_inserts :
    reg128.map.length = Alpha.routing.Limits.MaxServices
    ∧ (Alpha.routing.ServiceRegistry.addService reg128 "fresh_id" [popNY]).1
        = .Ok
    ∧ (Alpha.routing.ServiceRegistry.addService reg128 "fresh_id" [popNY]).2.map.length
        = Alpha.routing.Limits.MaxServices + 1
    ∧ (Alpha.routing.ServiceRegistry.addService reg128 "fresh_id" [popNY]).2.map.lookup
        "fresh_id" = some [popNY] := by
  refine ⟨?_, ?_, ?_, ?_⟩ <;> decide


/-- C2 (code bug witness): upserting "svc" with `[popB]` after `[popA]`
returns `Ok`, but the published snapshot still maps "svc" to `[popA]` —
`unordered_map::emplace` never overwrites an existing key, so upsert does not
replace. -/
theorem claim_C2_upsert_does_not_replace :
    (Alpha.routing.ServiceRegistry.upsertService {} "svc" [popA]).1 = .Ok
    ∧ (Alpha.routing.ServiceRegistry.upsertService
        (Alpha.routing.ServiceRegistry.upsertService {} "svc" [popA]).2
        "svc" [popB]).1 = .Ok
    ∧ (Alpha.routing.ServiceRegistry.upsertService
        (Alpha.routing.ServiceRegistry.upsertService {} "svc" [popA]).2
        "svc" [popB]).2.map.lookup "svc" = some [popA]
    ∧ popA ≠ popB := by
  refine ⟨?_, ?_, ?_, ?_⟩ <;> decide


/-- C9 counterexample: the length-1 region "r" is drawn from the character
class but fails validation (`validateId` requires at least 2 characters for
regions too), so `addService` returns `Invalid` and publishes nothing. -/
theorem claim_C9_region_length_one_rejected :
    popRegion1.region.data.all Alpha.routing.ServiceRegistry.validChar = true
    ∧ popRegion1.region.data.length = 1
    ∧ Alpha.routing.ServiceRegistry.validatePops [popRegion1] = false
    ∧ (Alpha.routing.ServiceRegistry.addService {} "svc1" [popRegion1]).1 = .Invalid
    ∧ (Alpha.routing.ServiceRegistry.addService {} "svc1" [popRegion1]).2.map = [] := by
  refine ⟨?_, ?_, ?_, ?_, ?_⟩ <;> decide

/-- C9 amended: pop validation accepts every region string of length 2..32
drawn from `[A-Za-z0-9_-]` — a pop with such a region (other fields valid)
passes validation, and adding a service with it succeeds and publishes it. -/
theorem claim_C9_region_2_to_32_accepted (region : String)
    (h2 : 2 ≤ region.data.length) (h32 : region.data.length ≤ 32)
    (hcls : region.data.all Alpha.routing.ServiceRegistry.validChar = true) :
    Alpha.routing.ServiceRegistry.validatePops
      [{ id := "ny", region := region, ip := "192.0.2.1" }] = true
    ∧ (Alpha.routing.ServiceRegistry.addService {} "svc1"
        [{ id := "ny", region := region, ip := "192.0.2.1" }]).1 = .Ok
    ∧ (Alpha.routing.ServiceRegistry.addService {} "svc1"
        [{ id := "ny", region := region, ip := "192.0.2.1" }]).2.map.lookup "svc1"
      = some [{ id := "ny", region := region, ip := "192.0.2.1" }] := by
  have hvr : Alpha.routing.ServiceRegistry.validateId region
      Alpha.routing.Limits.MaxRegionLen = true := by
    simp only [Alpha.routing.ServiceRegistry.validateId, Alpha.routing.Limits.MaxRegionLen]
    rw [if_neg (by simp only [Bool.or_eq_true, decide_eq_true_eq]; omega),
      if_neg (by omega)]
    exact hcls
  have hid : Alpha.routing.ServiceRegistry.validateId "ny"
      Alpha.routing.Limits.MaxIdLen = true := by decide
  have hip : Alpha.routing.ServiceRegistry.validateIp "192.0.2.1" = true := by decide
  have hvp : Alpha.routing.ServiceRegistry.validatePops
      [{ id := "ny", region := region, ip := "192.0.2.1" }] = true := by
    simp [Alpha.routing.ServiceRegistry.validatePops,
      Alpha.routing.ServiceRegistry.hasDupId, hid, hip, hvr,
      Alpha.routing.Limits.MaxPopsPerService]
  have hsvc : Alpha.routing.ServiceRegistry.validateId "svc1"
      Alpha.routing.Limits.MaxIdLen = true := by decide
  refine ⟨hvp, ?_, ?_⟩ <;>
    simp [Alpha.routing.ServiceRegistry.addService,
      Alpha.routing.ServiceRegistry.mutate, hvp, hsvc,
      Alpha.routing.ServiceRegistry.mapEmplace, List.lookup,
      Alpha.routing.Limits.MaxServices]

/-- Witness for C9 amended: the length-2 region "us" is accepted and the
service is published. -/
theorem claim_C9_region_2_to_32_accepted_witness :
    Alpha.routing.ServiceRegistry.validatePops
      [{ id := "ny", region := "us", ip := "192.0.2.1" }] = true
    ∧ (Alpha.routing.ServiceRegistry.addService {} "svc1"
        [{ id := "ny", region := "us", ip := "192.0.2.1" }]).1 = .Ok
    ∧ (Alpha.routing.ServiceRegistry.addService {} "svc1"
        [{ id := "ny", region := "us", ip := "192.0.2.1" }]).2.map.lookup "svc1"
      = some [{ id := "ny", region := "us", ip := "192.0.2.1" }] :=
  claim_C9_region_2_to_32_accepted "us" (by decide) (by decide) (by decide)
